import Mathlib

/-!
Verification development for the statsd bridge ingestion pipeline.

The Go sources modelled here are `pkg/listener/listener.go` together with the
`pkg/line` parsing file that ships alongside it.  Conventions of the shallow
embedding:

* Go strings are byte sequences and may be invalid UTF-8, so they are modelled
  as `List Nat` (each element a byte value `< 256`); all separators the code
  searches for are single ASCII bytes, and an ASCII byte can never occur inside
  a multi-byte UTF-8 sequence (continuation bytes are `≥ 0x80`), so Go's
  rune-based `range` scans coincide with byte scans for these searches.
* IEEE-754 float64 values are modelled as `ℚ`; the parser's decimal literals
  and the sample-rate arithmetic (`value / r`, `int(1 / r)`) are carried out in
  `ℚ` with Go's float-to-int conversion modelled by truncation toward zero.
  Hex literals, `Inf` / `NaN` spellings and digit-separating underscores that
  `strconv.ParseFloat` also accepts are outside this model.
* Prometheus counters are modelled by the increment deltas a call performs.
-/

/-- Go strings as byte sequences (may be invalid UTF-8). -/
abbrev GoStr := List Nat

/-- Validity of a byte sequence as UTF-8, as decided by Go's
`unicode/utf8.ValidString`: the standard RFC 3629 table, rejecting overlong
encodings, surrogates and code points above U+10FFFF. -/
def utf8Valid : GoStr → Bool
  | [] => true
  | b0 :: t =>
    if b0 < 128 then utf8Valid t
    else if 194 ≤ b0 && b0 ≤ 223 then
      match t with
      | b1 :: t1 => (128 ≤ b1 && b1 ≤ 191) && utf8Valid t1
      | [] => false
    else if b0 = 224 then
      match t with
      | b1 :: b2 :: t2 =>
        (160 ≤ b1 && b1 ≤ 191) && (128 ≤ b2 && b2 ≤ 191) && utf8Valid t2
      | _ => false
    else if (225 ≤ b0 && b0 ≤ 236) || (238 ≤ b0 && b0 ≤ 239) then
      match t with
      | b1 :: b2 :: t2 =>
        (128 ≤ b1 && b1 ≤ 191) && (128 ≤ b2 && b2 ≤ 191) && utf8Valid t2
      | _ => false
    else if b0 = 237 then
      match t with
      | b1 :: b2 :: t2 =>
        (128 ≤ b1 && b1 ≤ 159) && (128 ≤ b2 && b2 ≤ 191) && utf8Valid t2
      | _ => false
    else if b0 = 240 then
      match t with
      | b1 :: b2 :: b3 :: t3 =>
        (144 ≤ b1 && b1 ≤ 191) && (128 ≤ b2 && b2 ≤ 191) &&
          (128 ≤ b3 && b3 ≤ 191) && utf8Valid t3
      | _ => false
    else if 241 ≤ b0 && b0 ≤ 243 then
      match t with
      | b1 :: b2 :: b3 :: t3 =>
        (128 ≤ b1 && b1 ≤ 191) && (128 ≤ b2 && b2 ≤ 191) &&
          (128 ≤ b3 && b3 ≤ 191) && utf8Valid t3
      | _ => false
    else if b0 = 244 then
      match t with
      | b1 :: b2 :: b3 :: t3 =>
        (128 ≤ b1 && b1 ≤ 143) && (128 ≤ b2 && b2 ≤ 191) &&
          (128 ≤ b3 && b3 ≤ 191) && utf8Valid t3
      | _ => false
    else false

/-- Go's `strings.SplitN(s, sep, 2)` for a one-byte separator: the part before
the first occurrence of `sep` and everything after it, or `none` when `sep`
does not occur (in which case `SplitN` returns a single element). -/
def splitFirst (sep : Nat) : GoStr → Option (GoStr × GoStr)
  | [] => none
  | b :: t =>
    if b = sep then some ([], t)
    else
      match splitFirst sep t with
      | some (x, y) => some (b :: x, y)
      | none => none

/-- Go's `strings.Split(s, sep)` for a one-byte separator: all fragments, empty
fragments included; the empty string yields one empty fragment. -/
def splitAll (sep : Nat) : GoStr → List GoStr
  | [] => [[]]
  | b :: t =>
    if b = sep then [] :: splitAll sep t
    else
      match splitAll sep t with
      | x :: r => (b :: x) :: r
      | [] => [[b]]

/-- Go's `strings.Contains(s, "|#")`: the two-byte pattern `0x7c 0x23`. -/
def containsBarHash : GoStr → Bool
  | 124 :: 35 :: _ => true
  | _ :: t => containsBarHash t
  | [] => false

/-- A Go `map[string]string`, as the list of its bindings. Insertion overwrites
an existing binding for the same key; binding order is irrelevant to every
property proved here (Go maps are unordered). -/
abbrev Labels := List (GoStr × GoStr)

/-- Insertion into a `Labels` map with overwrite semantics. -/
def mapInsert (m : Labels) (k v : GoStr) : Labels :=
  (m.filter (fun p => !(p.1 == k))) ++ [(k, v)]

def isDigitByte (b : Nat) : Bool := 48 ≤ b && b ≤ 57

def isAlphaByte (b : Nat) : Bool :=
  (65 ≤ b && b ≤ 90) || (97 ≤ b && b ≤ 122) || b = 95

/-- Modelled from the spec: `mapper.EscapeMetricName` lives in `pkg/mapper`,
which is not under `src/`.  Spec §4.1: "Tag keys are sanitized to conform to
label-name rules: any character not in `[A-Za-z_][A-Za-z0-9_]*` is replaced
with `_`, and a leading digit is prefixed with `_`."  No claim proved below
depends on the exact behaviour of this function. -/
def escapeMetricName (s : GoStr) : GoStr :=
  let repl := s.map (fun b => if isAlphaByte b || isDigitByte b then b else 95)
  match s with
  | b :: _ => if isDigitByte b then 95 :: repl else repl
  | [] => []

/-- Numeric value of a string of ASCII digit bytes. -/
def digitsToNat (l : List Nat) : Nat := l.foldl (fun acc b => acc * 10 + (b - 48)) 0

/-- Longest leading run of ASCII digit bytes, and the rest. -/
def spanDigits : GoStr → List Nat × GoStr
  | [] => ([], [])
  | b :: t =>
    if isDigitByte b then
      let p := spanDigits t
      (b :: p.1, p.2)
    else ([], b :: t)

/-- Go's `strconv.ParseFloat(s, 64)` on the decimal-literal subset of its
grammar: optional sign, digits with at most one dot (at least one digit
required), optional decimal exponent.  Returns `none` where Go returns an
error.  (Hex floats, `Inf` / `NaN` spellings and underscore separators are not
modelled; no claim involves them.) -/
def parseFloat (s : GoStr) : Option ℚ :=
  let signSplit : ℚ × GoStr :=
    match s with
    | 43 :: t => (1, t)
    | 45 :: t => (-1, t)
    | t => (1, t)
  let ip := spanDigits signSplit.2
  let fracSplit : Option (List Nat) × GoStr :=
    match ip.2 with
    | 46 :: t =>
      let q := spanDigits t
      (some q.1, q.2)
    | t => (none, t)
  if ip.1 = [] ∧ (fracSplit.1 = none ∨ fracSplit.1 = some []) then none
  else
    let fdigits := fracSplit.1.getD []
    let mant : ℚ :=
      (digitsToNat ip.1 : ℚ) + (digitsToNat fdigits : ℚ) / (10 : ℚ) ^ fdigits.length
    match fracSplit.2 with
    | [] => some (signSplit.1 * mant)
    | e :: t =>
      if e = 101 ∨ e = 69 then
        let esignSplit : Int × GoStr :=
          match t with
          | 43 :: t2 => (1, t2)
          | 45 :: t2 => (-1, t2)
          | t2 => (1, t2)
        let ed := spanDigits esignSplit.2
        if ed.1 = [] ∨ ed.2 ≠ [] then none
        else some (signSplit.1 * mant * (10 : ℚ) ^ (esignSplit.1 * (digitsToNat ed.1 : Int)))
      else none

/-! ## Telemetry counters

Each structure below records the increments one call performs on the
Prometheus counters it is handed; the `sampleErrors` counter vector is split
into one field per `reason` label value. -/

structure Counters where
  malformedLine : Nat
  malformedComponent : Nat
  malformedValue : Nat
  invalidSampleFactor : Nat
  mixedTaggingStyles : Nat
  illegalEvent : Nat
  samplesReceived : Nat
  tagErrors : Nat
  tagsReceived : Nat
  deriving DecidableEq, Repr

def Counters.zero : Counters := ⟨0, 0, 0, 0, 0, 0, 0, 0, 0⟩

def Counters.incMalformedLine (c : Counters) : Counters :=
  ⟨c.malformedLine + 1, c.malformedComponent, c.malformedValue, c.invalidSampleFactor,
    c.mixedTaggingStyles, c.illegalEvent, c.samplesReceived, c.tagErrors, c.tagsReceived⟩

def Counters.incMalformedComponent (c : Counters) : Counters :=
  ⟨c.malformedLine, c.malformedComponent + 1, c.malformedValue, c.invalidSampleFactor,
    c.mixedTaggingStyles, c.illegalEvent, c.samplesReceived, c.tagErrors, c.tagsReceived⟩

def Counters.incMalformedValue (c : Counters) : Counters :=
  ⟨c.malformedLine, c.malformedComponent, c.malformedValue + 1, c.invalidSampleFactor,
    c.mixedTaggingStyles, c.illegalEvent, c.samplesReceived, c.tagErrors, c.tagsReceived⟩

def Counters.incInvalidSampleFactor (c : Counters) : Counters :=
  ⟨c.malformedLine, c.malformedComponent, c.malformedValue, c.invalidSampleFactor + 1,
    c.mixedTaggingStyles, c.illegalEvent, c.samplesReceived, c.tagErrors, c.tagsReceived⟩

def Counters.incMixedTaggingStyles (c : Counters) : Counters :=
  ⟨c.malformedLine, c.malformedComponent, c.malformedValue, c.invalidSampleFactor,
    c.mixedTaggingStyles + 1, c.illegalEvent, c.samplesReceived, c.tagErrors, c.tagsReceived⟩

def Counters.incIllegalEventBy (c : Counters) (n : Nat) : Counters :=
  ⟨c.malformedLine, c.malformedComponent, c.malformedValue, c.invalidSampleFactor,
    c.mixedTaggingStyles, c.illegalEvent + n, c.samplesReceived, c.tagErrors, c.tagsReceived⟩

def Counters.incSamplesReceived (c : Counters) : Counters :=
  ⟨c.malformedLine, c.malformedComponent, c.malformedValue, c.invalidSampleFactor,
    c.mixedTaggingStyles, c.illegalEvent, c.samplesReceived + 1, c.tagErrors, c.tagsReceived⟩

def Counters.withTagErrors (c : Counters) (n : Nat) : Counters :=
  ⟨c.malformedLine, c.malformedComponent, c.malformedValue, c.invalidSampleFactor,
    c.mixedTaggingStyles, c.illegalEvent, c.samplesReceived, n, c.tagsReceived⟩

def Counters.incTagsReceived (c : Counters) : Counters :=
  ⟨c.malformedLine, c.malformedComponent, c.malformedValue, c.invalidSampleFactor,
    c.mixedTaggingStyles, c.illegalEvent, c.samplesReceived, c.tagErrors, c.tagsReceived + 1⟩

/-! ## Event model (pkg/event) -/

/-- The three event shapes the parser emits (`CounterEvent`, `GaugeEvent`,
`TimerEvent` in pkg/event). -/
inductive Event
  | counterEvent (metricName : GoStr) (value : ℚ) (labels : Labels)
  | gaugeEvent (metricName : GoStr) (value : ℚ) (relative : Bool) (labels : Labels)
  | timerEvent (metricName : GoStr) (value : ℚ) (labels : Labels)
  deriving DecidableEq, Repr

/-- The `Value()` accessor shared by the event variants. -/
def Event.value : Event → ℚ
  | .counterEvent _ v _ => v
  | .gaugeEvent _ v _ _ => v
  | .timerEvent _ v _ => v

/-- The `MetricName()` accessor shared by the event variants. -/
def Event.metricName : Event → GoStr
  | .counterEvent n _ _ => n
  | .gaugeEvent n _ _ _ => n
  | .timerEvent n _ _ => n

/-! ## Line parser (pkg/line) -/

/-- `buildEvent` (pkg/line): total dispatch on the stat type; `none` models the
error return for the unsupported `s` (set) type and for unknown types.  The
type codes as byte strings: `c` `[99]`, `g` `[103]`, `ms` `[109, 115]`,
`h` `[104]`, `d` `[100]`. -/
def buildEvent (statType metric : GoStr) (value : ℚ) (relative : Bool)
    (labels : Labels) : Option Event :=
  if statType = [99] then some (.counterEvent metric value labels)
  else if statType = [103] then some (.gaugeEvent metric value relative labels)
  else if statType = [109, 115] ∨ statType = [104] ∨ statType = [100] then
    some (.timerEvent metric value labels)
  else none

/-- `parseTag` (pkg/line): split one tag on the first occurrence of the
separator byte; empty tag, missing separator, empty key or empty value each
count one tag error and insert nothing. -/
def parseTag (tag : GoStr) (sep : Nat) (labels : Labels) (tagErrors : Nat) :
    Labels × Nat :=
  if tag = [] then (labels, tagErrors + 1)
  else
    match splitFirst sep tag with
    | some (k, v) =>
      if k = [] ∨ v = [] then (labels, tagErrors + 1)
      else (mapInsert labels (escapeMetricName k) v, tagErrors)
    | none => (labels, tagErrors + 1)

/-- `trimLeftHash` (pkg/line): strip one leading `#` byte. -/
def trimLeftHash : GoStr → GoStr
  | 35 :: t => t
  | s => s

/-- The comma-splitting loop shared by `parseNameTags` and
`ParseDogStatsDTags` (pkg/line): cut the component at each `,` byte and feed
each piece to `parseTag`; a trailing `,` yields no final piece.  `cur` is the
piece accumulated since the last comma. -/
def tagsLoop (sep : Nat) (stripHash : Bool) :
    GoStr → GoStr → Labels → Nat → Labels × Nat
  | [], cur, labels, te =>
    if cur = [] then (labels, te)
    else parseTag (if stripHash then trimLeftHash cur else cur) sep labels te
  | b :: rest, cur, labels, te =>
    if b = 44 then
      let p := parseTag (if stripHash then trimLeftHash cur else cur) sep labels te
      tagsLoop sep stripHash rest [] p.1 p.2
    else tagsLoop sep stripHash rest (cur ++ [b]) labels te

/-- `parseNameTags` (pkg/line): librato / influx in-name tags, `=`-separated. -/
def parseNameTags (component : GoStr) (labels : Labels) (te : Nat) : Labels × Nat :=
  tagsLoop 61 false component [] labels te

/-- `ParseDogStatsDTags` (pkg/line): `:`-separated tags, with one leading `#`
stripped from each piece. -/
def parseDogStatsDTags (component : GoStr) (labels : Labels) (te : Nat) :
    Labels × Nat :=
  tagsLoop 58 true component [] labels te

/-- `parseNameAndTags` (pkg/line): everything before the first `#` or `,` byte
is the metric name; everything after it is parsed as `=`-separated name tags.
Returns the metric name, the labels and the tag-error count. -/
def parseNameAndTags : GoStr → Labels → Nat → GoStr × Labels × Nat
  | [], labels, te => ([], labels, te)
  | b :: t, labels, te =>
    if b = 35 ∨ b = 44 then
      let p := parseNameTags t labels te
      ([], p.1, p.2)
    else
      let r := parseNameAndTags t labels te
      (b :: r.1, r.2.1, r.2.2)

/-- Go's conversion `int(x)` from float64 truncates toward zero; on a rational
this is `Int.tdiv` of numerator by denominator (`Int.tdiv` also truncates
toward zero, and the denominator is positive). -/
def ratTruncToInt (q : ℚ) : Int := Int.tdiv q.num (q.den : Int)

/-- State threaded through the modifier loop of `LineToEvents` (source lines
324–361): the (possibly rescaled) value, the current sampling factor, the
timer duplication count, the labels map and the counter increments so far. -/
structure SampleState where
  value : ℚ
  samplingFactor : ℚ
  multiplyEvents : Int
  labels : Labels
  counters : Counters
  deriving DecidableEq

/-- One iteration of the modifier loop in `LineToEvents` (source lines
334–361).  A `@` modifier parses the sampling factor (Go's `ParseFloat`
returns `0` together with the error, and a factor of `0` is then reset to
`1`); for counters the value is divided by the factor, for timers the
duplication count becomes `int(1 / factor)`, for gauges nothing changes.  A
`#` modifier parses dogstatsd tags into the labels map.  Anything else counts
one `invalid_sample_factor` error. -/
def processMod (statType : GoStr) (st : SampleState) (component : GoStr) :
    SampleState :=
  match component with
  | [] =>
    -- Unreachable from `processSample`: modifiers were checked non-empty
    -- (the Go code indexes `component[0]` unconditionally).
    ⟨st.value, st.samplingFactor, st.multiplyEvents, st.labels,
      st.counters.incInvalidSampleFactor⟩
  | b :: rest =>
    if b = 64 then
      let parsed : ℚ × Counters :=
        match parseFloat rest with
        | some f => (f, st.counters)
        | none => (0, st.counters.incInvalidSampleFactor)
      let sf := if parsed.1 = 0 then 1 else parsed.1
      if statType = [103] then
        ⟨st.value, sf, st.multiplyEvents, st.labels, parsed.2⟩
      else if statType = [99] then
        ⟨st.value / sf, sf, st.multiplyEvents, st.labels, parsed.2⟩
      else if statType = [109, 115] ∨ statType = [104] ∨ statType = [100] then
        ⟨st.value, sf, ratTruncToInt (1 / sf), st.labels, parsed.2⟩
      else
        ⟨st.value, sf, st.multiplyEvents, st.labels, parsed.2⟩
    else if b = 35 then
      let p := parseDogStatsDTags rest st.labels st.counters.tagErrors
      ⟨st.value, st.samplingFactor, st.multiplyEvents, p.1, st.counters.withTagErrors p.2⟩
    else
      ⟨st.value, st.samplingFactor, st.multiplyEvents, st.labels,
        st.counters.incInvalidSampleFactor⟩

/-- Whether the value literal begins with `+` or `-` (source lines 312–315);
only gauges consume the flag. -/
def goRelative : GoStr → Bool
  | 43 :: _ => true
  | 45 :: _ => true
  | _ => false

/-- The body of the per-sample loop of `LineToEvents` (source lines 300–377):
count the sample, split it on `|` into 2–4 components, parse the value, check
all modifiers are non-empty, run the modifier loop, then emit
`multiplyEvents` copies of the built event (each failed build counts one
`illegal_event`).  Returns the events appended for this sample, the updated
labels map and the updated counters. -/
def processSample (metric : GoStr) (labels : Labels) (c : Counters)
    (sample : GoStr) : List Event × Labels × Counters :=
  let c := c.incSamplesReceived
  let components := splitAll 124 sample
  if components.length < 2 ∨ components.length > 4 then
    ([], labels, c.incMalformedComponent)
  else
    let valueStr := components.headD []
    let statType := (components.drop 1).headD []
    let relative := goRelative valueStr
    match parseFloat valueStr with
    | none => ([], labels, c.incMalformedValue)
    | some value =>
      let mods := components.drop 2
      if mods.any (fun m => m.isEmpty) then
        ([], labels, c.incMalformedComponent)
      else
        let st0 : SampleState := ⟨value, 1, 1, labels, c⟩
        let st1 := mods.foldl (processMod statType) st0
        let st :=
          if st1.labels.isEmpty then st1
          else ⟨st1.value, st1.samplingFactor, st1.multiplyEvents, st1.labels,
            st1.counters.incTagsReceived⟩
        let n := st.multiplyEvents.toNat
        match buildEvent statType metric st.value relative st.labels with
        | some e => (List.replicate n e, st.labels, st.counters)
        | none => ([], st.labels, st.counters.incIllegalEventBy n)

/-- The fold of `processSample` over the samples of one line, appending each
sample's events (source line 375: `events = append(events, event)`) and
threading the labels map and the counters. -/
def processSamples (metric : GoStr) :
    List GoStr → Labels → Counters → List Event × Labels × Counters
  | [], labels, c => ([], labels, c)
  | s :: rest, labels, c =>
    let p := processSample metric labels c s
    let q := processSamples metric rest p.2.1 p.2.2
    (p.1 ++ q.1, q.2.1, q.2.2)

/-- `LineToEvents` (pkg/line, source lines 267–379).  The returned `Counters`
are the increments this call performs (starting from all-zero).  An empty line
yields nothing; a line without `:`, with an empty metric part, or that is not
valid UTF-8 counts one `malformed_line` error; a post-colon portion containing
`|#` is a single dogstatsd sample and may not be combined with in-name tags
(`mixed_tagging_styles`); otherwise the post-colon portion splits on `:` into
multiple samples. -/
def lineToEvents (line : GoStr) : List Event × Counters :=
  if line = [] then ([], Counters.zero)
  else
    match splitFirst 58 line with
    | none => ([], Counters.zero.incMalformedLine)
    | some (el0, el1) =>
      if el0 = [] ∨ ¬utf8Valid line then ([], Counters.zero.incMalformedLine)
      else
        let pn := parseNameAndTags el0 [] 0
        let metric := pn.1
        let labels := pn.2.1
        let c0 := Counters.zero.withTagErrors pn.2.2
        if containsBarHash el1 then
          if ¬labels.isEmpty then ([], c0.incMixedTaggingStyles)
          else
            let p := processSamples metric [el1] labels c0
            (p.1, p.2.2)
        else
          let p := processSamples metric (splitAll 58 el1) labels c0
          (p.1, p.2.2)

/-! ## Datagram listeners (pkg/listener) -/

/-- `StatsDUDPListener.HandlePacket` (source lines 44–51): count the packet,
split the payload on `\n` (empty fragments included — Go's `strings.Split`
yields one empty line for an empty payload and a final empty line for a
payload ending in `\n`), and for each line count it and queue the parsed
events.  Returned: the queued event slices in order, the packet-counter
increment, and the `linesReceived` increments. -/
def udpHandlePacket (packet : GoStr) : List (List Event) × Nat × Nat :=
  let lines := splitAll 10 packet
  (lines.map (fun l => (lineToEvents l).1), 1, lines.length)

/-- `StatsDUnixgramListener.HandlePacket` (source lines 131–138): identical
line-splitting and per-line handling as the UDP variant. -/
def unixgramHandlePacket (packet : GoStr) : List (List Event) × Nat × Nat :=
  let lines := splitAll 10 packet
  (lines.map (fun l => (lineToEvents l).1), 1, lines.length)

/-! ## TCP listener (pkg/listener) -/

/-- One outcome of `bufio.Reader.ReadLine` on a TCP connection: a complete
line, a line truncated at the buffer limit (`isPrefix` true), end of the
stream (`io.EOF`), or any other read error. -/
inductive ReadResult
  | fullLine (content : GoStr)
  | truncatedLine (content : GoStr)
  | endOfStream
  | readError
  deriving DecidableEq, Repr

/-- Counter increments performed by one `HandleConn` call. -/
structure TCPCounters where
  tcpConnections : Nat
  tcpErrors : Nat
  tcpLineTooLong : Nat
  linesReceived : Nat
  deriving DecidableEq, Repr

def TCPCounters.incLinesReceived (c : TCPCounters) : TCPCounters :=
  ⟨c.tcpConnections, c.tcpErrors, c.tcpLineTooLong, c.linesReceived + 1⟩

def TCPCounters.incTcpLineTooLong (c : TCPCounters) : TCPCounters :=
  ⟨c.tcpConnections, c.tcpErrors, c.tcpLineTooLong + 1, c.linesReceived⟩

def TCPCounters.incTcpErrors (c : TCPCounters) : TCPCounters :=
  ⟨c.tcpConnections, c.tcpErrors + 1, c.tcpLineTooLong, c.linesReceived⟩

/-- The read loop of `StatsDTCPListener.HandleConn` (source lines 85–101),
with the connection's successive `ReadLine` outcomes given as a list: a full
line is counted and parsed and the loop continues; a truncated line counts
one `tcp_line_too_long` and breaks; a non-EOF error counts one `tcp_errors`
and breaks; EOF (or the end of the modelled outcome list) breaks silently.
Returns the per-line event slices handed to the queue and the final counters. -/
def handleConnLoop : List ReadResult → TCPCounters → List (List Event) × TCPCounters
  | [], c => ([], c)
  | .fullLine s :: rest, c =>
    let p := handleConnLoop rest c.incLinesReceived
    ((lineToEvents s).1 :: p.1, p.2)
  | .truncatedLine _ :: _, c => ([], c.incTcpLineTooLong)
  | .endOfStream :: _, c => ([], c)
  | .readError :: _, c => ([], c.incTcpErrors)

/-- `StatsDTCPListener.HandleConn` (source lines 79–102): count the connection,
then run the read loop. -/
def handleConn (reads : List ReadResult) : List (List Event) × TCPCounters :=
  handleConnLoop reads ⟨1, 0, 0, 0⟩

/-! ## Event queue (pkg/event)

The event queue implementation is not among the given sources — only its test
is — so it is modelled from the spec. -/

/-- Cut off batches of `N` elements from the front of `buf` as long as at
least `N` remain, returning the batches in order and the remainder.  The fuel
argument of the auxiliary function bounds the number of cuts so the recursion
is structural (`buf.length` cuts always suffice). -/
def cutBatchesAux {α : Type} : Nat → Nat → List α → List (List α) × List α
  | 0, _, buf => ([], buf)
  | fuel + 1, N, buf =>
    if 0 < N ∧ N ≤ buf.length then
      let p := cutBatchesAux fuel N (buf.drop N)
      (buf.take N :: p.1, p.2)
    else ([], buf)

def cutBatches {α : Type} (N : Nat) (buf : List α) : List (List α) × List α :=
  cutBatchesAux buf.length N buf

/-- Modelled from the spec: the `EventQueue` of pkg/event (its implementation
is not under `src/`).  Spec §4.3: state is a buffer, a size threshold `N` and
the flush channel; batches sent on the channel are collected in order in
`out`, and `flushed` is the events-flushed counter, incremented once per
batch. -/
structure EventQueue where
  buffer : List Event
  threshold : Nat
  out : List (List Event)
  flushed : Nat
  deriving DecidableEq

/-- Modelled from the spec: `NewEventQueue` with threshold `N` (empty buffer,
nothing sent yet). -/
def EventQueue.new (N : Nat) : EventQueue := ⟨[], N, [], 0⟩

/-- Modelled from the spec: `Queue(events)` — "append events; while the
internal buffer length is ≥ `N`, cut off the leading `N` events and send them
as one batch on `out`, incrementing the flushed counter once per batch. The
call returns only after all full batches have been handed off; any remainder
stays buffered." -/
def EventQueue.queue (q : EventQueue) (evs : List Event) : EventQueue :=
  let buf := q.buffer ++ evs
  let p := cutBatches q.threshold buf
  ⟨p.2, q.threshold, q.out ++ p.1, q.flushed + p.1.length⟩

/-! ## Supporting lemmas -/

@[simp]
lemma Counters.withTagErrors_self (c : Counters) : c.withTagErrors c.tagErrors = c := by
  cases c; rfl

@[simp]
lemma Counters.withTagErrors_withTagErrors (c : Counters) (a b : Nat) :
    (c.withTagErrors a).withTagErrors b = c.withTagErrors b := by
  cases c; rfl

lemma splitFirst_not_mem_append (sep : Nat) (pre rest : GoStr) (h : sep ∉ pre) :
    splitFirst sep (pre ++ sep :: rest) = some (pre, rest) := by
  induction pre with
  | nil => simp [splitFirst]
  | cons b t ih =>
    have hb : ¬b = sep := fun hbs => h (by simp [hbs])
    have ht : sep ∉ t := fun hts => h (by simp [hts])
    simp [splitFirst, hb, ih ht]

lemma splitAll_ne_nil (sep : Nat) (l : GoStr) : splitAll sep l ≠ [] := by
  cases l with
  | nil => simp [splitAll]
  | cons b t =>
    by_cases hb : b = sep
    · simp [splitAll, hb]
    · simp only [splitAll, if_neg hb]
      cases h : splitAll sep t <;> simp

lemma splitAll_length (sep : Nat) (l : GoStr) :
    (splitAll sep l).length = l.count sep + 1 := by
  induction l with
  | nil => simp [splitAll]
  | cons b t ih =>
    by_cases hb : b = sep
    · subst hb
      simp [splitAll, ih, List.count_cons]
    · obtain ⟨x, r, hxr⟩ := List.exists_cons_of_ne_nil (splitAll_ne_nil sep t)
      simp only [splitAll, if_neg hb, hxr]
      have := ih
      rw [hxr] at this
      simp only [List.length_cons] at this ⊢
      rw [List.count_cons]
      simp [hb, this]

/-! ## Claim C1 -/

/-- C1: for every input line that is not valid UTF-8, `LineToEvents` returns
an empty event sequence and increments `sample_errors{malformed_line}` exactly
once; no other counter moves. -/
theorem lineToEvents_invalid_utf8 (line : GoStr) (h : utf8Valid line = false) :
    lineToEvents line = ([], Counters.zero.incMalformedLine) := by
  have hne : ¬line = [] := by
    intro he
    rw [he] at h
    exact absurd h (by decide)
  unfold lineToEvents
  rw [if_neg hne]
  cases hsf : splitFirst 58 line with
  | none => rfl
  | some p =>
    obtain ⟨a, b⟩ := p
    have hcond : a = [] ∨ ¬utf8Valid line = true := Or.inr (by simp [h])
    simp only [if_pos hcond]

/-- Witness for C1 at the concrete non-UTF-8 line `0xc3 0x28`. -/
theorem lineToEvents_invalid_utf8_witness :
    utf8Valid [195, 40] = false ∧
      lineToEvents [195, 40] = ([], Counters.zero.incMalformedLine) :=
  ⟨by decide, lineToEvents_invalid_utf8 [195, 40] (by decide)⟩

/-! ## Claim C10 -/

/-- C10: both datagram `HandlePacket` variants increment `linesReceived`
exactly (number of `\n` bytes) + 1 times — the payload is split on `\n`
keeping empty fragments, so an empty packet still counts one line and a
packet ending in `\n` counts a final empty line — and an empty line parses to
zero events (with no counter increments). -/
theorem handlePacket_lines_received (packet : GoStr) :
    (udpHandlePacket packet).2.2 = packet.count 10 + 1 ∧
      (udpHandlePacket packet).2.1 = 1 ∧
      (unixgramHandlePacket packet).2.2 = packet.count 10 + 1 ∧
      (unixgramHandlePacket packet).2.1 = 1 ∧
      lineToEvents [] = ([], Counters.zero) := by
  exact ⟨splitAll_length 10 packet, rfl, splitAll_length 10 packet, rfl, rfl⟩

/-! ## Claim C5 -/

/-- C5: a line whose post-colon portion contains `|#` and whose metric part
yielded at least one in-name tag counts one `mixed_tagging_styles` error and
returns no events (the tag errors counted while parsing the name tags are the
only other increments). -/
theorem lineToEvents_mixed_tagging (metricPart rest : GoStr)
    (hm : (58 : Nat) ∉ metricPart) (hmne : metricPart ≠ [])
    (hu : utf8Valid (metricPart ++ 58 :: rest) = true)
    (hbar : containsBarHash rest = true)
    (hlab : (parseNameAndTags metricPart [] 0).2.1 ≠ []) :
    lineToEvents (metricPart ++ 58 :: rest) =
      ([], (Counters.zero.withTagErrors
        (parseNameAndTags metricPart [] 0).2.2).incMixedTaggingStyles) := by
  have hne : ¬(metricPart ++ 58 :: rest) = [] := by simp
  unfold lineToEvents
  rw [if_neg hne, splitFirst_not_mem_append 58 metricPart rest hm]
  have hemp : ¬(parseNameAndTags metricPart [] 0).2.1.isEmpty = true := by
    simpa [List.isEmpty_iff] using hlab
  simp [hbar, hemp, hmne, hu]

/-- Witness for C5 at the mixed-style line `foo#tag1=foo:100|c|#tag1:bar`. -/
theorem lineToEvents_mixed_tagging_witness :
    (58 : Nat) ∉ ([102, 111, 111, 35, 116, 97, 103, 49, 61, 102, 111, 111] : GoStr) ∧
      lineToEvents
          ([102, 111, 111, 35, 116, 97, 103, 49, 61, 102, 111, 111] ++
            58 :: [49, 48, 48, 124, 99, 124, 35, 116, 97, 103, 49, 58, 98, 97, 114]) =
        ([], (Counters.zero.withTagErrors
          (parseNameAndTags [102, 111, 111, 35, 116, 97, 103, 49, 61, 102, 111, 111] [] 0).2.2).incMixedTaggingStyles) :=
  ⟨by decide,
    lineToEvents_mixed_tagging
      [102, 111, 111, 35, 116, 97, 103, 49, 61, 102, 111, 111]
      [49, 48, 48, 124, 99, 124, 35, 116, 97, 103, 49, 58, 98, 97, 114]
      (by decide) (by decide) (by decide) (by decide) (by decide)⟩

lemma any_isEmpty_false_of_ne_nil {mods : List GoStr} (hmods : ∀ m ∈ mods, m ≠ []) :
    (mods.any (fun m => m.isEmpty)) = false := by
  simp only [List.any_eq_false, List.isEmpty_iff]
  exact hmods

/-- Unfolding of `processSample` on a sample whose `|`-components are
`valueStr :: T :: mods` with 0–2 non-empty modifiers and a parseable value:
the result is determined by the modifier fold. -/
lemma processSample_eq (metric : GoStr) (labels : Labels) (c : Counters)
    (sample valueStr T : GoStr) (mods : List GoStr) (v : ℚ)
    (hsplit : splitAll 124 sample = valueStr :: T :: mods)
    (hlen : mods.length ≤ 2)
    (hv : parseFloat valueStr = some v)
    (hmods : ∀ m ∈ mods, m ≠ []) :
    processSample metric labels c sample =
      (let st1 := mods.foldl (processMod T) ⟨v, 1, 1, labels, c.incSamplesReceived⟩
       let st : SampleState :=
         if st1.labels.isEmpty then st1
         else ⟨st1.value, st1.samplingFactor, st1.multiplyEvents, st1.labels,
           st1.counters.incTagsReceived⟩
       match buildEvent T metric st.value (goRelative valueStr) st.labels with
       | some e => (List.replicate st.multiplyEvents.toNat e, st.labels, st.counters)
       | none => ([], st.labels, st.counters.incIllegalEventBy st.multiplyEvents.toNat)) := by
  have hlen4 : ¬((valueStr :: T :: mods).length < 2 ∨ (valueStr :: T :: mods).length > 4) := by
    simp only [List.length_cons]
    omega
  simp only [processSample, hsplit, if_neg hlen4, List.headD, List.drop, hv,
    any_isEmpty_false_of_ne_nil hmods, Bool.false_eq_true, if_false]

/-- A `#`-modifier (dogstatsd tag section) changes only the labels map and the
tag-error counter of the modifier-loop state. -/
lemma processMod_hash (T : GoStr) (st : SampleState) (t : GoStr) :
    ∃ L te, processMod T st (35 :: t) =
      ⟨st.value, st.samplingFactor, st.multiplyEvents, L, st.counters.withTagErrors te⟩ := by
  refine ⟨(parseDogStatsDTags t st.labels st.counters.tagErrors).1,
    (parseDogStatsDTags t st.labels st.counters.tagErrors).2, ?_⟩
  simp [processMod]

/-- Folding any list of `#`-modifiers changes only the labels map and the
tag-error counter. -/
lemma foldl_processMod_hashes (T : GoStr) (l : List GoStr) (st : SampleState) :
    ∃ L te, List.foldl (processMod T) st (l.map (fun t => 35 :: t)) =
      ⟨st.value, st.samplingFactor, st.multiplyEvents, L, st.counters.withTagErrors te⟩ := by
  induction l generalizing st with
  | nil =>
    exact ⟨st.labels, st.counters.tagErrors, by cases st with
      | mk v sf me L c => simp⟩
  | cons t ts ih =>
    obtain ⟨L1, te1, h1⟩ := processMod_hash T st t
    obtain ⟨L2, te2, h2⟩ := ih (⟨st.value, st.samplingFactor, st.multiplyEvents, L1,
      st.counters.withTagErrors te1⟩ : SampleState)
    refine ⟨L2, te2, ?_⟩
    simp only [List.map_cons, List.foldl_cons, h1, h2,
      Counters.withTagErrors_withTagErrors]

/-- For gauges no modifier ever changes the value or the duplication count. -/
lemma processMod_gauge_value (st : SampleState) (m : GoStr) :
    (processMod [103] st m).value = st.value ∧
      (processMod [103] st m).multiplyEvents = st.multiplyEvents := by
  cases m with
  | nil => exact ⟨rfl, rfl⟩
  | cons b t =>
    by_cases h64 : b = 64
    · subst h64
      simp [processMod]
    · by_cases h35 : b = 35
      · subst h35
        simp [processMod]
      · simp [processMod, h64, h35]

lemma foldl_processMod_gauge (l : List GoStr) (st : SampleState) :
    (List.foldl (processMod [103]) st l).value = st.value ∧
      (List.foldl (processMod [103]) st l).multiplyEvents = st.multiplyEvents := by
  induction l generalizing st with
  | nil => exact ⟨rfl, rfl⟩
  | cons m ms ih =>
    obtain ⟨h1, h2⟩ := processMod_gauge_value st m
    obtain ⟨h3, h4⟩ := ih (processMod [103] st m)
    exact ⟨by rw [List.foldl_cons, h3, h1], by rw [List.foldl_cons, h4, h2]⟩

/-- Go truncation agrees with the floor on non-negative rationals. -/
lemma ratTruncToInt_eq_floor (q : ℚ) (h : 0 ≤ q) : ratTruncToInt q = ⌊q⌋ := by
  rw [Rat.floor_def, ratTruncToInt]
  exact Int.tdiv_eq_ediv (Rat.num_nonneg.mpr h) (Int.ofNat_nonneg q.den)

lemma ratTruncToInt_eq_zero_of_lt_one (q : ℚ) (h0 : 0 ≤ q) (h1 : q < 1) :
    ratTruncToInt q = 0 := by
  rw [ratTruncToInt_eq_floor q h0]
  rw [Int.floor_eq_zero_iff]
  exact ⟨h0, h1⟩

lemma ratTruncToInt_nonpos_of_neg (q : ℚ) (h : q < 0) : ratTruncToInt q ≤ 0 := by
  rw [ratTruncToInt]
  have hnum : q.num ≤ 0 := le_of_lt (Rat.num_neg.mpr h)
  have : q.num = -(-q.num) := by ring
  rw [this, Int.neg_tdiv]
  have : 0 ≤ (-q.num).tdiv (q.den : Int) :=
    Int.tdiv_nonneg (by omega) (Int.ofNat_nonneg q.den)
  omega

lemma hash_at_mods_ne_nil (rs : GoStr) (preT postT : List GoStr) :
    ∀ m ∈ preT.map (fun t => 35 :: t) ++ (64 :: rs) :: postT.map (fun t => 35 :: t),
      m ≠ ([] : GoStr) := by
  intro m hm
  rcases List.mem_append.mp hm with h | h
  · obtain ⟨t, _, rfl⟩ := List.mem_map.mp h
    simp
  · rcases List.mem_cons.mp h with rfl | h
    · simp
    · obtain ⟨t, _, rfl⟩ := List.mem_map.mp h
      simp

/-! ## Claim C2 -/

/-- C2: a counter sample (type code `c`) whose modifiers consist of exactly one
sample-rate modifier `@rs` parsing to `r ∈ (0, 1]` (surrounded by any
dogstatsd tag modifiers) emits exactly one `CounterEvent` whose value is the
parsed literal value divided by `r`. -/
theorem counter_sample_rate (metric : GoStr) (labels : Labels) (c : Counters)
    (sample valueStr rs : GoStr) (preT postT : List GoStr) (v r : ℚ)
    (hsplit : splitAll 124 sample =
      valueStr :: [99] :: (preT.map (fun t => 35 :: t) ++ (64 :: rs) :: postT.map (fun t => 35 :: t)))
    (hlen : preT.length + postT.length ≤ 1)
    (hv : parseFloat valueStr = some v)
    (hr : parseFloat rs = some r) (hr0 : 0 < r) (hr1 : r ≤ 1) :
    (processSample metric labels c sample).1 =
      [Event.counterEvent metric (v / r) (processSample metric labels c sample).2.1] := by
  have hlen2 : (preT.map (fun t => 35 :: t) ++ (64 :: rs) :: postT.map (fun t => 35 :: t)).length ≤ 2 := by
    simp only [List.length_append, List.length_map, List.length_cons]
    omega
  rw [processSample_eq metric labels c sample valueStr [99]
    (preT.map (fun t => 35 :: t) ++ (64 :: rs) :: postT.map (fun t => 35 :: t)) v
    hsplit hlen2 hv (hash_at_mods_ne_nil rs preT postT)]
  rw [List.foldl_append, List.foldl_cons]
  obtain ⟨L1, te1, h1⟩ := foldl_processMod_hashes [99] preT
    ⟨v, 1, 1, labels, c.incSamplesReceived⟩
  rw [h1]
  have hrne : ¬r = 0 := ne_of_gt hr0
  have hstep : processMod [99]
      (⟨v, 1, 1, L1, (Counters.incSamplesReceived c).withTagErrors te1⟩ : SampleState)
      (64 :: rs) =
      ⟨v / r, r, 1, L1, (Counters.incSamplesReceived c).withTagErrors te1⟩ := by
    simp [processMod, hr, hrne]
  rw [hstep]
  obtain ⟨L2, te2, h2⟩ := foldl_processMod_hashes [99] postT
    ⟨v / r, r, 1, L1, (Counters.incSamplesReceived c).withTagErrors te1⟩
  rw [h2]
  by_cases hL : (L2 : Labels).isEmpty
  · simp [hL, buildEvent]
  · simp [hL, buildEvent]

/-- Witness for C2 at the sample `100|c|@0.1|#tag1:foo:bar` of metric `foo`. -/
theorem counter_sample_rate_witness :
    parseFloat [49, 48, 48] = some 100 ∧ parseFloat [48, 46, 49] = some (1 / 10) ∧
      (processSample [102, 111, 111] [] Counters.zero
          [49, 48, 48, 124, 99, 124, 64, 48, 46, 49, 124, 35, 116, 97, 103, 49, 58, 102, 111, 111, 58, 98, 97, 114]).1 =
        [Event.counterEvent [102, 111, 111] ((100 : ℚ) / (1 / 10))
          ((processSample [102, 111, 111] [] Counters.zero
            [49, 48, 48, 124, 99, 124, 64, 48, 46, 49, 124, 35, 116, 97, 103, 49, 58, 102, 111, 111, 58, 98, 97, 114]).2.1)] :=
  ⟨by norm_num +decide [parseFloat, spanDigits, isDigitByte, digitsToNat],
    by norm_num +decide [parseFloat, spanDigits, isDigitByte, digitsToNat],
    counter_sample_rate [102, 111, 111] [] Counters.zero
      [49, 48, 48, 124, 99, 124, 64, 48, 46, 49, 124, 35, 116, 97, 103, 49, 58, 102, 111, 111, 58, 98, 97, 114]
      [49, 48, 48] [48, 46, 49] [] [[116, 97, 103, 49, 58, 102, 111, 111, 58, 98, 97, 114]]
      100 (1 / 10) (by decide) (by decide)
      (by norm_num +decide [parseFloat, spanDigits, isDigitByte, digitsToNat])
      (by norm_num +decide [parseFloat, spanDigits, isDigitByte, digitsToNat])
      (by norm_num) (by norm_num)⟩

/-! ## Claim C6 -/

/-- C6: a gauge sample (type code `g`) emits exactly one `GaugeEvent` carrying
the parsed literal value, for ANY combination of 0–2 non-empty modifiers — in
particular the presence and value of a sample-rate modifier `@r` never changes
the emitted value or the number of emitted events. -/
theorem gauge_ignores_sample_rate (metric : GoStr) (labels : Labels) (c : Counters)
    (sample valueStr : GoStr) (mods : List GoStr) (v : ℚ)
    (hsplit : splitAll 124 sample = valueStr :: [103] :: mods)
    (hlen : mods.length ≤ 2)
    (hv : parseFloat valueStr = some v)
    (hmods : ∀ m ∈ mods, m ≠ []) :
    (processSample metric labels c sample).1 =
      [Event.gaugeEvent metric v (goRelative valueStr)
        (processSample metric labels c sample).2.1] := by
  rw [processSample_eq metric labels c sample valueStr [103] mods v hsplit hlen hv hmods]
  obtain ⟨hval, hme⟩ :=
    foldl_processMod_gauge mods ⟨v, 1, 1, labels, c.incSamplesReceived⟩
  by_cases hL : (mods.foldl (processMod [103]) ⟨v, 1, 1, labels, c.incSamplesReceived⟩).labels.isEmpty
  · simp [hL, buildEvent, hval, hme]
  · simp [hL, buildEvent, hval, hme]

/-- Witness for C6 at the sample `3|g|@0.2` of metric `foo`. -/
theorem gauge_ignores_sample_rate_witness :
    parseFloat [51] = some 3 ∧
      (processSample [102, 111, 111] [] Counters.zero [51, 124, 103, 124, 64, 48, 46, 50]).1 =
        [Event.gaugeEvent [102, 111, 111] 3 (goRelative [51])
          ((processSample [102, 111, 111] [] Counters.zero [51, 124, 103, 124, 64, 48, 46, 50]).2.1)] :=
  ⟨by norm_num +decide [parseFloat, spanDigits, isDigitByte, digitsToNat],
    gauge_ignores_sample_rate [102, 111, 111] [] Counters.zero
      [51, 124, 103, 124, 64, 48, 46, 50] [51] [[64, 48, 46, 50]] 3
      (by decide) (by decide)
      (by norm_num +decide [parseFloat, spanDigits, isDigitByte, digitsToNat])
      (by decide)⟩

lemma ratTruncToInt_one : ratTruncToInt 1 = 1 := by
  rw [ratTruncToInt, Rat.num_one, Rat.den_one]
  decide

/-! ## Claim C7 -/

/-- C7: a sample whose `@` modifier payload does not parse as a float counts
one `invalid_sample_factor` error and proceeds with rate 1, and a payload that
parses to exactly 0 is likewise treated as rate 1 without an error count — in
both cases a single event with the literal value is still emitted. -/
theorem invalid_or_zero_sample_factor (metric : GoStr) (labels : Labels) (c : Counters)
    (sample valueStr typ rs : GoStr) (v : ℚ)
    (hsplit : splitAll 124 sample = [valueStr, typ, 64 :: rs])
    (htyp : typ = [99] ∨ typ = [103] ∨ typ = [109, 115] ∨ typ = [104] ∨ typ = [100])
    (hv : parseFloat valueStr = some v)
    (hcase : parseFloat rs = none ∨ parseFloat rs = some 0) :
    (processSample metric labels c sample).1.map Event.value = [v] ∧
      (processSample metric labels c sample).2.2.invalidSampleFactor =
        c.invalidSampleFactor + (if parseFloat rs = none then 1 else 0) := by
  have hmods : ∀ m ∈ ([64 :: rs] : List GoStr), m ≠ ([] : GoStr) := by
    intro m hm
    rcases List.mem_singleton.mp hm with rfl
    simp
  rw [processSample_eq metric labels c sample valueStr typ [64 :: rs] v hsplit
    (by simp) hv hmods]
  rcases hcase with hA | hB
  · rcases htyp with rfl | rfl | rfl | rfl | rfl <;>
      by_cases hL : labels.isEmpty <;>
        simp [processMod, hA, buildEvent, Event.value, ratTruncToInt_one, div_one,
          Counters.incInvalidSampleFactor, Counters.incSamplesReceived,
          Counters.incTagsReceived, hL]
  · rcases htyp with rfl | rfl | rfl | rfl | rfl <;>
      by_cases hL : labels.isEmpty <;>
        simp [processMod, hB, buildEvent, Event.value, ratTruncToInt_one, div_one,
          Counters.incInvalidSampleFactor, Counters.incSamplesReceived,
          Counters.incTagsReceived, hL]

/-- Witness for C7 at the sample `1|c|@bar` of metric `foo` (the `@` payload
`bar` does not parse). -/
theorem invalid_or_zero_sample_factor_witness :
    parseFloat [98, 97, 114] = none ∧
      ((processSample [102, 111, 111] [] Counters.zero
          [49, 124, 99, 124, 64, 98, 97, 114]).1.map Event.value = [1] ∧
        (processSample [102, 111, 111] [] Counters.zero
            [49, 124, 99, 124, 64, 98, 97, 114]).2.2.invalidSampleFactor =
          Counters.zero.invalidSampleFactor +
            (if parseFloat [98, 97, 114] = none then 1 else 0)) :=
  ⟨by norm_num +decide [parseFloat, spanDigits, isDigitByte, digitsToNat],
    invalid_or_zero_sample_factor [102, 111, 111] [] Counters.zero
      [49, 124, 99, 124, 64, 98, 97, 114] [49] [99] [98, 97, 114] 1
      (by decide) (Or.inl rfl)
      (by norm_num +decide [parseFloat, spanDigits, isDigitByte, digitsToNat])
      (Or.inl (by norm_num +decide [parseFloat, spanDigits, isDigitByte, digitsToNat]))⟩

/-! ## Claim C9 -/

/-- C9: an otherwise well-formed timer sample (type `ms`, `h` or `d`) whose
sample-rate modifier parses to `r` with `r > 1` or `r < 0` emits zero events
(the copy count `int(1 / r)` truncates to 0 or is negative), while the sample
is still counted in `samplesReceived` and no `sample_errors` reason counter is
incremented. -/
theorem timer_out_of_range_rate (metric : GoStr) (labels : Labels) (c : Counters)
    (sample valueStr T rs : GoStr) (preT postT : List GoStr) (v r : ℚ)
    (hT : T = [109, 115] ∨ T = [104] ∨ T = [100])
    (hsplit : splitAll 124 sample =
      valueStr :: T :: (preT.map (fun t => 35 :: t) ++ (64 :: rs) :: postT.map (fun t => 35 :: t)))
    (hlen : preT.length + postT.length ≤ 1)
    (hv : parseFloat valueStr = some v)
    (hr : parseFloat rs = some r)
    (hrange : 1 < r ∨ r < 0) :
    (processSample metric labels c sample).1 = [] ∧
      (processSample metric labels c sample).2.2.samplesReceived = c.samplesReceived + 1 ∧
      (processSample metric labels c sample).2.2.malformedLine = c.malformedLine ∧
      (processSample metric labels c sample).2.2.malformedComponent = c.malformedComponent ∧
      (processSample metric labels c sample).2.2.malformedValue = c.malformedValue ∧
      (processSample metric labels c sample).2.2.invalidSampleFactor = c.invalidSampleFactor ∧
      (processSample metric labels c sample).2.2.mixedTaggingStyles = c.mixedTaggingStyles ∧
      (processSample metric labels c sample).2.2.illegalEvent = c.illegalEvent := by
  have hlen2 : (preT.map (fun t => 35 :: t) ++ (64 :: rs) :: postT.map (fun t => 35 :: t)).length ≤ 2 := by
    simp only [List.length_append, List.length_map, List.length_cons]
    omega
  rw [processSample_eq metric labels c sample valueStr T
    (preT.map (fun t => 35 :: t) ++ (64 :: rs) :: postT.map (fun t => 35 :: t)) v
    hsplit hlen2 hv (hash_at_mods_ne_nil rs preT postT)]
  rw [List.foldl_append, List.foldl_cons]
  obtain ⟨L1, te1, h1⟩ := foldl_processMod_hashes T preT
    ⟨v, 1, 1, labels, c.incSamplesReceived⟩
  rw [h1]
  have hrne : ¬r = 0 := by
    rcases hrange with h | h
    · exact ne_of_gt (lt_trans one_pos h)
    · exact ne_of_lt h
  have hstep : processMod T
      (⟨v, 1, 1, L1, (Counters.incSamplesReceived c).withTagErrors te1⟩ : SampleState)
      (64 :: rs) =
      ⟨v, r, ratTruncToInt (1 / r), L1, (Counters.incSamplesReceived c).withTagErrors te1⟩ := by
    have hTg : ¬T = [103] := by rcases hT with rfl | rfl | rfl <;> decide
    have hTc : ¬T = [99] := by rcases hT with rfl | rfl | rfl <;> decide
    simp [processMod, hr, hrne, hTg, hTc, hT]
  rw [hstep]
  obtain ⟨L2, te2, h2⟩ := foldl_processMod_hashes T postT
    ⟨v, r, ratTruncToInt (1 / r), L1, (Counters.incSamplesReceived c).withTagErrors te1⟩
  rw [h2]
  have hn : (ratTruncToInt (1 / r)).toNat = 0 := by
    rcases hrange with h | h
    · have hrpos : (0 : ℚ) < r := lt_trans one_pos h
      have h0 : (0 : ℚ) ≤ 1 / r := le_of_lt (div_pos one_pos hrpos)
      have h1 : (1 / r : ℚ) < 1 := (div_lt_one hrpos).mpr h
      rw [ratTruncToInt_eq_zero_of_lt_one (1 / r) h0 h1]
      rfl
    · have hneg : (1 / r : ℚ) < 0 := one_div_neg.mpr h
      exact Int.toNat_eq_zero.mpr (ratTruncToInt_nonpos_of_neg (1 / r) hneg)
  have hbuild : ∃ e, buildEvent T metric v (goRelative valueStr) L2 = some e := by
    rcases hT with rfl | rfl | rfl <;> exact ⟨_, rfl⟩
  obtain ⟨e, he⟩ := hbuild
  rw [one_div] at hn
  by_cases hL : (L2 : Labels).isEmpty <;>
    simp [hL, he, hn, Counters.withTagErrors, Counters.incSamplesReceived,
      Counters.incTagsReceived]

/-- Witness for C9 at the sample `5|ms|@2` of metric `foo` (rate 2 > 1). -/
theorem timer_out_of_range_rate_witness :
    parseFloat [50] = some 2 ∧ (1 : ℚ) < 2 ∧
      ((processSample [102, 111, 111] [] Counters.zero [53, 124, 109, 115, 124, 64, 50]).1 = [] ∧
        (processSample [102, 111, 111] [] Counters.zero [53, 124, 109, 115, 124, 64, 50]).2.2.samplesReceived =
          Counters.zero.samplesReceived + 1 ∧
        (processSample [102, 111, 111] [] Counters.zero [53, 124, 109, 115, 124, 64, 50]).2.2.malformedLine =
          Counters.zero.malformedLine ∧
        (processSample [102, 111, 111] [] Counters.zero [53, 124, 109, 115, 124, 64, 50]).2.2.malformedComponent =
          Counters.zero.malformedComponent ∧
        (processSample [102, 111, 111] [] Counters.zero [53, 124, 109, 115, 124, 64, 50]).2.2.malformedValue =
          Counters.zero.malformedValue ∧
        (processSample [102, 111, 111] [] Counters.zero [53, 124, 109, 115, 124, 64, 50]).2.2.invalidSampleFactor =
          Counters.zero.invalidSampleFactor ∧
        (processSample [102, 111, 111] [] Counters.zero [53, 124, 109, 115, 124, 64, 50]).2.2.mixedTaggingStyles =
          Counters.zero.mixedTaggingStyles ∧
        (processSample [102, 111, 111] [] Counters.zero [53, 124, 109, 115, 124, 64, 50]).2.2.illegalEvent =
          Counters.zero.illegalEvent) :=
  ⟨by norm_num +decide [parseFloat, spanDigits, isDigitByte, digitsToNat], by norm_num,
    timer_out_of_range_rate [102, 111, 111] [] Counters.zero
      [53, 124, 109, 115, 124, 64, 50] [53] [109, 115] [50] [] [] 5 2
      (Or.inl rfl) (by decide) (by decide)
      (by norm_num +decide [parseFloat, spanDigits, isDigitByte, digitsToNat])
      (by norm_num +decide [parseFloat, spanDigits, isDigitByte, digitsToNat])
      (Or.inl (by norm_num))⟩

lemma processSamples_append (metric : GoStr) (l1 l2 : List GoStr) (L : Labels)
    (c : Counters) :
    (processSamples metric (l1 ++ l2) L c).1 =
      (processSamples metric l1 L c).1 ++
        (processSamples metric l2 (processSamples metric l1 L c).2.1
          (processSamples metric l1 L c).2.2).1 := by
  induction l1 generalizing L c with
  | nil => simp [processSamples]
  | cons s t ih =>
    simp only [List.cons_append, processSamples, List.append_eq, ih, List.append_assoc]

/-! ## Claim C3 -/

/-- C3: a timer sample (type `ms`, `h` or `d`) whose modifiers consist of
exactly one sample-rate modifier `@rs` parsing to `r ∈ (0, 1]` (surrounded by
any dogstatsd tag modifiers) emits exactly `⌊1 / r⌋` identical `TimerEvent`s,
as one contiguous replicate block; and the events of one sample are contiguous
in the sequence produced by the per-line sample fold (the fold over an
appended sample list is the appended fold). -/
theorem timer_sample_rate_duplication (metric : GoStr) (labels : Labels) (c : Counters)
    (sample valueStr T rs : GoStr) (preT postT : List GoStr) (v r : ℚ)
    (metric2 : GoStr) (pre2 post2 : List GoStr) (labels2 : Labels) (c2 : Counters)
    (hT : T = [109, 115] ∨ T = [104] ∨ T = [100])
    (hsplit : splitAll 124 sample =
      valueStr :: T :: (preT.map (fun t => 35 :: t) ++ (64 :: rs) :: postT.map (fun t => 35 :: t)))
    (hlen : preT.length + postT.length ≤ 1)
    (hv : parseFloat valueStr = some v)
    (hr : parseFloat rs = some r) (hr0 : 0 < r) (hr1 : r ≤ 1) :
    (processSample metric labels c sample).1 =
      List.replicate (⌊(1 / r : ℚ)⌋).toNat
        (Event.timerEvent metric v (processSample metric labels c sample).2.1) ∧
      1 ≤ ⌊(1 / r : ℚ)⌋ ∧
      (processSamples metric2 (pre2 ++ post2) labels2 c2).1 =
        (processSamples metric2 pre2 labels2 c2).1 ++
          (processSamples metric2 post2 (processSamples metric2 pre2 labels2 c2).2.1
            (processSamples metric2 pre2 labels2 c2).2.2).1 := by
  have hge : 1 ≤ ⌊(1 / r : ℚ)⌋ := by
    rw [Int.le_floor]
    exact_mod_cast one_le_one_div hr0 hr1
  refine ⟨?_, hge, processSamples_append metric2 pre2 post2 labels2 c2⟩
  have hlen2 : (preT.map (fun t => 35 :: t) ++ (64 :: rs) :: postT.map (fun t => 35 :: t)).length ≤ 2 := by
    simp only [List.length_append, List.length_map, List.length_cons]
    omega
  rw [processSample_eq metric labels c sample valueStr T
    (preT.map (fun t => 35 :: t) ++ (64 :: rs) :: postT.map (fun t => 35 :: t)) v
    hsplit hlen2 hv (hash_at_mods_ne_nil rs preT postT)]
  rw [List.foldl_append, List.foldl_cons]
  obtain ⟨L1, te1, h1⟩ := foldl_processMod_hashes T preT
    ⟨v, 1, 1, labels, c.incSamplesReceived⟩
  rw [h1]
  have hrne : ¬r = 0 := ne_of_gt hr0
  have hstep : processMod T
      (⟨v, 1, 1, L1, (Counters.incSamplesReceived c).withTagErrors te1⟩ : SampleState)
      (64 :: rs) =
      ⟨v, r, ratTruncToInt (1 / r), L1, (Counters.incSamplesReceived c).withTagErrors te1⟩ := by
    have hTg : ¬T = [103] := by rcases hT with rfl | rfl | rfl <;> decide
    have hTc : ¬T = [99] := by rcases hT with rfl | rfl | rfl <;> decide
    simp [processMod, hr, hrne, hTg, hTc, hT]
  rw [hstep]
  obtain ⟨L2, te2, h2⟩ := foldl_processMod_hashes T postT
    ⟨v, r, ratTruncToInt (1 / r), L1, (Counters.incSamplesReceived c).withTagErrors te1⟩
  rw [h2]
  have hfl : ratTruncToInt (1 / r) = ⌊(1 / r : ℚ)⌋ :=
    ratTruncToInt_eq_floor (1 / r) (le_of_lt (div_pos one_pos hr0))
  have he : buildEvent T metric v (goRelative valueStr) L2 =
      some (Event.timerEvent metric v L2) := by
    rcases hT with rfl | rfl | rfl <;> simp [buildEvent]
  rw [one_div] at hfl
  by_cases hL : (L2 : Labels).isEmpty <;> simp [hL, he, hfl]

/-- Witness for C3 at the sample `0.01|h|@0.2|#tag1:bar,#tag2:baz` of metric
`foo` (rate 1/5, five copies). -/
theorem timer_sample_rate_duplication_witness :
    parseFloat [48, 46, 50] = some (1 / 5) ∧
      ((processSample [102, 111, 111] [] Counters.zero
          [48, 46, 48, 49, 124, 104, 124, 64, 48, 46, 50, 124, 35, 116, 97, 103, 49, 58, 98, 97, 114, 44, 35, 116, 97, 103, 50, 58, 98, 97, 122]).1 =
        List.replicate (⌊(1 / (1 / 5 : ℚ) : ℚ)⌋).toNat
          (Event.timerEvent [102, 111, 111] (1 / 100)
            ((processSample [102, 111, 111] [] Counters.zero
              [48, 46, 48, 49, 124, 104, 124, 64, 48, 46, 50, 124, 35, 116, 97, 103, 49, 58, 98, 97, 114, 44, 35, 116, 97, 103, 50, 58, 98, 97, 122]).2.1)) ∧
        1 ≤ ⌊(1 / (1 / 5 : ℚ) : ℚ)⌋ ∧
        (processSamples [102] ([[50, 124, 99]] ++ [[51, 124, 103]]) [] Counters.zero).1 =
          (processSamples [102] [[50, 124, 99]] [] Counters.zero).1 ++
            (processSamples [102] [[51, 124, 103]]
              (processSamples [102] [[50, 124, 99]] [] Counters.zero).2.1
              (processSamples [102] [[50, 124, 99]] [] Counters.zero).2.2).1) :=
  ⟨by norm_num +decide [parseFloat, spanDigits, isDigitByte, digitsToNat],
    timer_sample_rate_duplication [102, 111, 111] [] Counters.zero
      [48, 46, 48, 49, 124, 104, 124, 64, 48, 46, 50, 124, 35, 116, 97, 103, 49, 58, 98, 97, 114, 44, 35, 116, 97, 103, 50, 58, 98, 97, 122]
      [48, 46, 48, 49] [104] [48, 46, 50] []
      [[116, 97, 103, 49, 58, 98, 97, 114, 44, 35, 116, 97, 103, 50, 58, 98, 97, 122]]
      (1 / 100) (1 / 5)
      [102] [[50, 124, 99]] [[51, 124, 103]] [] Counters.zero
      (Or.inr (Or.inl rfl)) (by decide) (by decide)
      (by norm_num +decide [parseFloat, spanDigits, isDigitByte, digitsToNat])
      (by norm_num +decide [parseFloat, spanDigits, isDigitByte, digitsToNat])
      (by norm_num) (by norm_num)⟩

/-! ## Claim C8 -/

def TCPCounters.addLinesReceived (c : TCPCounters) (n : Nat) : TCPCounters :=
  ⟨c.tcpConnections, c.tcpErrors, c.tcpLineTooLong, c.linesReceived + n⟩

lemma handleConnLoop_fullLines (strs : List GoStr) (rest : List ReadResult)
    (c : TCPCounters) :
    handleConnLoop (strs.map ReadResult.fullLine ++ rest) c =
      ((strs.map (fun l => (lineToEvents l).1)) ++
          (handleConnLoop rest (c.addLinesReceived strs.length)).1,
        (handleConnLoop rest (c.addLinesReceived strs.length)).2) := by
  have hadd : ∀ (c : TCPCounters) (n : Nat),
      (c.incLinesReceived).addLinesReceived n = c.addLinesReceived (n + 1) := by
    intro c n
    cases c with
    | mk a b d e =>
      simp only [TCPCounters.incLinesReceived, TCPCounters.addLinesReceived,
        TCPCounters.mk.injEq]
      exact ⟨trivial, trivial, trivial, by omega⟩
  induction strs generalizing c with
  | nil =>
    simp [TCPCounters.addLinesReceived]
  | cons s t ih =>
    simp only [List.map_cons, List.cons_append, handleConnLoop, List.append_eq,
      ih, hadd, List.length_cons]

/-- C8: in the TCP per-connection read loop, a truncated line (`isPrefix`)
increments `tcp_line_too_long` exactly once and terminates the connection —
whatever read outcomes follow are never processed and only the lines before it
are parsed and queued; a non-EOF read error likewise increments `tcp_errors`
exactly once and terminates the connection. -/
theorem tcp_too_long_and_error_terminate (strs : List GoStr) (s : GoStr)
    (post post2 : List ReadResult) :
    (handleConn (strs.map ReadResult.fullLine ++ ReadResult.truncatedLine s :: post) =
        handleConn (strs.map ReadResult.fullLine ++ [ReadResult.truncatedLine s]) ∧
      (handleConn (strs.map ReadResult.fullLine ++ ReadResult.truncatedLine s :: post)).2.tcpLineTooLong = 1 ∧
      (handleConn (strs.map ReadResult.fullLine ++ ReadResult.truncatedLine s :: post)).2.tcpErrors = 0 ∧
      (handleConn (strs.map ReadResult.fullLine ++ ReadResult.truncatedLine s :: post)).2.linesReceived = strs.length ∧
      (handleConn (strs.map ReadResult.fullLine ++ ReadResult.truncatedLine s :: post)).1 =
        strs.map (fun l => (lineToEvents l).1)) ∧
    (handleConn (strs.map ReadResult.fullLine ++ ReadResult.readError :: post2) =
        handleConn (strs.map ReadResult.fullLine ++ [ReadResult.readError]) ∧
      (handleConn (strs.map ReadResult.fullLine ++ ReadResult.readError :: post2)).2.tcpErrors = 1 ∧
      (handleConn (strs.map ReadResult.fullLine ++ ReadResult.readError :: post2)).2.tcpLineTooLong = 0 ∧
      (handleConn (strs.map ReadResult.fullLine ++ ReadResult.readError :: post2)).2.linesReceived = strs.length ∧
      (handleConn (strs.map ReadResult.fullLine ++ ReadResult.readError :: post2)).1 =
        strs.map (fun l => (lineToEvents l).1)) := by
  unfold handleConn
  rw [handleConnLoop_fullLines strs (ReadResult.truncatedLine s :: post),
    handleConnLoop_fullLines strs [ReadResult.truncatedLine s],
    handleConnLoop_fullLines strs (ReadResult.readError :: post2),
    handleConnLoop_fullLines strs [ReadResult.readError]]
  simp [handleConnLoop, TCPCounters.incTcpLineTooLong, TCPCounters.incTcpErrors,
    TCPCounters.addLinesReceived]

/-! ## Claim C4 -/

lemma cutBatchesAux_spec {α : Type} (N : Nat) (hN : 0 < N) :
    ∀ (fuel : Nat) (buf : List α), buf.length ≤ fuel →
      (cutBatchesAux fuel N buf).1.flatten ++ (cutBatchesAux fuel N buf).2 = buf ∧
        (cutBatchesAux fuel N buf).2.length < N ∧
        ∀ b ∈ (cutBatchesAux fuel N buf).1, b.length = N := by
  intro fuel
  induction fuel with
  | zero =>
    intro buf hb
    have hbuf : buf = [] := List.eq_nil_of_length_eq_zero (Nat.le_zero.mp hb)
    subst hbuf
    simp [cutBatchesAux, hN]
  | succ n ih =>
    intro buf hb
    by_cases hc : 0 < N ∧ N ≤ buf.length
    · have hdrop : (buf.drop N).length ≤ n := by
        simp only [List.length_drop]
        omega
      obtain ⟨h1, h2, h3⟩ := ih (buf.drop N) hdrop
      simp only [cutBatchesAux, if_pos hc]
      refine ⟨?_, h2, ?_⟩
      · simp only [List.flatten_cons, List.append_assoc, h1, List.take_append_drop]
      · intro b hb'
        rcases List.mem_cons.mp hb' with rfl | hmem
        · rw [List.length_take]
          exact min_eq_left hc.2
        · exact h3 b hmem
    · simp only [cutBatchesAux, if_neg hc]
      refine ⟨by simp, ?_, by simp⟩
      push_neg at hc
      have := hc hN
      omega

lemma cutBatches_spec {α : Type} (N : Nat) (hN : 0 < N) (buf : List α) :
    (cutBatches N buf).1.flatten ++ (cutBatches N buf).2 = buf ∧
      (cutBatches N buf).2.length < N ∧
      ∀ b ∈ (cutBatches N buf).1, b.length = N :=
  cutBatchesAux_spec N hN buf.length buf le_rfl

lemma join_length_const {α : Type} {l : List (List α)} {N : Nat}
    (h : ∀ b ∈ l, b.length = N) : l.flatten.length = N * l.length := by
  induction l with
  | nil => simp
  | cons a t ih =>
    have ha : a.length = N := h a (List.mem_cons_self a t)
    have ht : ∀ b ∈ t, b.length = N := fun b hb => h b (List.mem_cons_of_mem a hb)
    simp only [List.flatten_cons, List.length_append, List.length_cons, ha, ih ht,
      Nat.mul_succ]
    omega

lemma eventQueue_queue_step (N : Nat) (hN : 0 < N) (q : EventQueue)
    (evs : List Event)
    (hth : q.threshold = N) (hbuf : q.buffer.length < N)
    (hbatch : ∀ b ∈ q.out, b.length = N) (hfl : q.flushed = q.out.length) :
    (q.queue evs).threshold = N ∧
      (q.queue evs).buffer.length < N ∧
      (∀ b ∈ (q.queue evs).out, b.length = N) ∧
      (q.queue evs).flushed = (q.queue evs).out.length ∧
      (q.queue evs).out.flatten ++ (q.queue evs).buffer = q.out.flatten ++ q.buffer ++ evs := by
  obtain ⟨h1, h2, h3⟩ := cutBatches_spec N hN (q.buffer ++ evs)
  simp only [EventQueue.queue, hth]
  refine ⟨by trivial, h2, ?_, ?_, ?_⟩
  · intro b hb
    rcases List.mem_append.mp hb with hmem | hmem
    · exact hbatch b hmem
    · exact h3 b hmem
  · simp [hfl, List.length_append]
  · simp only [List.flatten_append, List.append_assoc, h1]

lemma eventQueue_fold_inv (N : Nat) (hN : 0 < N) (calls : List (List Event)) :
    ∀ (q : EventQueue),
      q.threshold = N → q.buffer.length < N → (∀ b ∈ q.out, b.length = N) →
        q.flushed = q.out.length →
        ((calls.foldl EventQueue.queue q).threshold = N ∧
          (calls.foldl EventQueue.queue q).buffer.length < N ∧
          (∀ b ∈ (calls.foldl EventQueue.queue q).out, b.length = N) ∧
          (calls.foldl EventQueue.queue q).flushed =
            (calls.foldl EventQueue.queue q).out.length ∧
          (calls.foldl EventQueue.queue q).out.flatten ++
              (calls.foldl EventQueue.queue q).buffer =
            q.out.flatten ++ q.buffer ++ calls.flatten) := by
  induction calls with
  | nil =>
    intro q hth hbuf hbatch hfl
    exact ⟨hth, hbuf, hbatch, hfl, by simp⟩
  | cons evs rest ih =>
    intro q hth hbuf hbatch hfl
    obtain ⟨s1, s2, s3, s4, s5⟩ := eventQueue_queue_step N hN q evs hth hbuf hbatch hfl
    obtain ⟨t1, t2, t3, t4, t5⟩ := ih (q.queue evs) s1 s2 s3 s4
    refine ⟨t1, t2, t3, t4, ?_⟩
    simp only [List.foldl_cons] at *
    rw [t5, s5, List.flatten_cons]
    simp [List.append_assoc]

lemma mul_add_lt_unique (N k K m m' : Nat) (hN : 0 < N) (hm : m < N) (hm' : m' < N)
    (h : N * K + m' = N * k + m) : K = k ∧ m' = m := by
  have e1 : (N * K + m') / N = K := by
    rw [Nat.mul_add_div hN, Nat.div_eq_of_lt hm']
    omega
  have e2 : (N * k + m) / N = k := by
    rw [Nat.mul_add_div hN, Nat.div_eq_of_lt hm]
    omega
  have hK : K = k := by rw [← e1, ← e2, h]
  subst hK
  exact ⟨rfl, by omega⟩

/-- C4: an `EventQueue` with threshold `N`, fed a total of `k * N + m` events
(`m < N`) over one or more `Queue` calls starting from a fresh queue, emits
exactly `k` batches of `N` events each, counts `k` flushes, leaves exactly `m`
events buffered, and the emitted batches followed by the remaining buffer are
the queued events in insertion order (each full batch is cut from the front of
the buffer). -/
theorem eventQueue_threshold_batches (N k m : Nat) (calls : List (List Event))
    (hN : 0 < N) (hm : m < N)
    (hlen : calls.flatten.length = k * N + m) :
    (calls.foldl EventQueue.queue (EventQueue.new N)).out.length = k ∧
      (calls.foldl EventQueue.queue (EventQueue.new N)).flushed = k ∧
      (∀ b ∈ (calls.foldl EventQueue.queue (EventQueue.new N)).out, b.length = N) ∧
      (calls.foldl EventQueue.queue (EventQueue.new N)).buffer.length = m ∧
      (calls.foldl EventQueue.queue (EventQueue.new N)).out.flatten ++
          (calls.foldl EventQueue.queue (EventQueue.new N)).buffer = calls.flatten := by
  obtain ⟨h1, h2, h3, h4, h5⟩ := eventQueue_fold_inv N hN calls (EventQueue.new N)
    rfl (by simpa [EventQueue.new] using hN) (by simp [EventQueue.new])
    (by simp [EventQueue.new])
  have h5' : (calls.foldl EventQueue.queue (EventQueue.new N)).out.flatten ++
      (calls.foldl EventQueue.queue (EventQueue.new N)).buffer = calls.flatten := by
    simpa [EventQueue.new] using h5
  have hcount : N * (calls.foldl EventQueue.queue (EventQueue.new N)).out.length +
      (calls.foldl EventQueue.queue (EventQueue.new N)).buffer.length = N * k + m := by
    have hlen2 := congrArg List.length h5'
    simp only [List.length_append] at hlen2
    rw [join_length_const h3] at hlen2
    rw [hlen2, hlen]
    ring
  obtain ⟨hk, hm'⟩ := mul_add_lt_unique N k
    (calls.foldl EventQueue.queue (EventQueue.new N)).out.length m
    (calls.foldl EventQueue.queue (EventQueue.new N)).buffer.length hN hm h2 hcount
  exact ⟨hk, by rw [h4, hk], h3, hm', h5'⟩

/-- Witness for C4: threshold 5 and 13 events in one call — two batches of 5
and 3 left buffered, as in the repository's `TestEventThresholdFlush`. -/
theorem eventQueue_threshold_batches_witness :
    (([List.replicate 13 (Event.counterEvent [] 0 [])]).flatten.length = 2 * 5 + 3) ∧
      ((([List.replicate 13 (Event.counterEvent [] 0 [])]).foldl EventQueue.queue
          (EventQueue.new 5)).out.length = 2 ∧
        (([List.replicate 13 (Event.counterEvent [] 0 [])]).foldl EventQueue.queue
          (EventQueue.new 5)).flushed = 2 ∧
        (∀ b ∈ (([List.replicate 13 (Event.counterEvent [] 0 [])]).foldl EventQueue.queue
          (EventQueue.new 5)).out, b.length = 5) ∧
        (([List.replicate 13 (Event.counterEvent [] 0 [])]).foldl EventQueue.queue
          (EventQueue.new 5)).buffer.length = 3 ∧
        (([List.replicate 13 (Event.counterEvent [] 0 [])]).foldl EventQueue.queue
              (EventQueue.new 5)).out.flatten ++
            (([List.replicate 13 (Event.counterEvent [] 0 [])]).foldl EventQueue.queue
              (EventQueue.new 5)).buffer =
          ([List.replicate 13 (Event.counterEvent [] 0 [])]).flatten) :=
  ⟨by decide,
    eventQueue_threshold_batches 5 2 3 [List.replicate 13 (Event.counterEvent [] 0 [])]
      (by decide) (by decide) (by decide)⟩
